import Mathlib

/-!
Shallow embedding of the go-chat repository (a peer-to-peer chat system with a
Directory service and a Client) and proofs about its Store, wire codec and
Directory admission validation.

Conventions of the embedding:
* Go strings are Lean `String`s; where Go operates on the raw bytes of a string
  (base64, the wire codec) we convert through an explicit UTF-8 encoder, so byte
  level behaviour is preserved.
* Go `map[string]V` is an association list with unique keys; `WfMap` below is
  the representation invariant (unique keys, and each chat is stored under its
  own id, which is how every write in the source keys the map).
* `time.Time` values are modelled as natural-number timestamps; the only
  operation the source uses on them is `Before` (strict order).
* Go's `sort.Slice`/`sort.Strings` produce a sequence that is non-decreasing in
  the comparator; for a total order on distinct keys the result is unique, so we
  model them with insertion sort.  For messages with equal `At` the source's
  unstable sort leaves the tie order unspecified; no theorem below depends on
  the tie order.
* `gob` encoding is not part of this repository; the codec is a parameter
  (`encode`/`decode` functions) of the framing definitions, exactly as the
  framing layer in `socket.go` treats it.
-/

namespace GoChat

/-! ### Association-list model of a Go string-keyed map -/

/-- Lookup of the first binding for a key (a Go map has at most one). -/
def mapGet {α : Type} : List (String × α) → String → Option α
  | [], _ => none
  | p :: ps, k => if p.1 = k then some p.2 else mapGet ps k

/-- Go map insert: replace the existing binding for the key, or append a new one. -/
def mapPut {α : Type} : List (String × α) → String → α → List (String × α)
  | [], k, v => [(k, v)]
  | p :: ps, k, v => if p.1 = k then (k, v) :: ps else p :: mapPut ps k v

/-- Go `delete(m, k)` (removes every binding for `k`; on a map with unique keys
this is exactly the single deletion Go performs). -/
def mapDel {α : Type} : List (String × α) → String → List (String × α)
  | [], _ => []
  | p :: ps, k => if p.1 = k then mapDel ps k else p :: mapDel ps k

/-- Keys of the association list. -/
def mapKeys {α : Type} (m : List (String × α)) : List String := m.map Prod.fst

/-! ### Client domain model (client/domain) -/

/-- `domain.User` from user.go. -/
structure User where
  Id : String
  Name : String
  Address : String
  Port : Int
deriving DecidableEq, Repr

/-- `domain.Message` from message.go; `At` is the timestamp. -/
structure Message where
  ChatId : String
  UserId : String
  UserName : String
  Text : String
  At : Nat
  ErrorMessage : Bool
deriving DecidableEq, Repr

/-- `domain.Chat` from chat.go. -/
structure Chat where
  Id : String
  OwnerUser : User
  Users : List User
  Content : List Message
  Offline : Bool
deriving DecidableEq, Repr

/-- The linear scan inside `Chat.GetUser`. -/
def findUser : List User → String → Option User
  | [], _ => none
  | u :: us, id => if u.Id = id then some u else findUser us id

/-- `Chat.GetUser` from chat.go: first matching remote user, else the owner,
else `ChatUserNotFoundErr` (modelled as `none`). -/
def Chat.GetUser (c : Chat) (id : String) : Option User :=
  match findUser c.Users id with
  | some u => some u
  | none => if id = c.OwnerUser.Id then some c.OwnerUser else none

/-! ### Lexicographic string order (Go `sort.Strings`)

Go compares strings byte-wise; UTF-8 preserves the order of code points, so the
code-point lexicographic order used here coincides with Go's byte order. -/

/-- Lexicographic comparison of char lists by code point. -/
def leChars : List Char → List Char → Bool
  | [], _ => true
  | _ :: _, [] => false
  | a :: as, b :: bs =>
    if a.toNat < b.toNat then true
    else if b.toNat < a.toNat then false
    else leChars as bs

/-- The order `sort.Strings` sorts by. -/
def strLe (a b : String) : Prop := leChars a.data b.data = true

instance : DecidableRel strLe := fun a b =>
  inferInstanceAs (Decidable (leChars a.data b.data = true))

theorem leChars_cons (a b : Char) (as bs : List Char) :
    leChars (a :: as) (b :: bs) = true ↔
      a.toNat < b.toNat ∨ (a.toNat = b.toNat ∧ leChars as bs = true) := by
  simp only [leChars]
  by_cases h1 : a.toNat < b.toNat
  · simp [h1]
  · by_cases h2 : b.toNat < a.toNat
    · simp [h1, h2]
      omega
    · have he : a.toNat = b.toNat := by omega
      simp [h1, h2, he]

theorem leChars_total (as bs : List Char) : leChars as bs = true ∨ leChars bs as = true := by
  induction as generalizing bs with
  | nil => left; rfl
  | cons a as ih =>
    cases bs with
    | nil => right; rfl
    | cons b bs =>
      rw [leChars_cons, leChars_cons]
      rcases Nat.lt_trichotomy a.toNat b.toNat with h | h | h
      · left; left; exact h
      · rcases ih bs with h2 | h2
        · left; right; exact ⟨h, h2⟩
        · right; right; exact ⟨h.symm, h2⟩
      · right; left; exact h

theorem leChars_trans {as bs cs : List Char} (h1 : leChars as bs = true)
    (h2 : leChars bs cs = true) : leChars as cs = true := by
  induction as generalizing bs cs with
  | nil => rfl
  | cons a as ih =>
    cases bs with
    | nil => simp [leChars] at h1
    | cons b bs =>
      cases cs with
      | nil => simp [leChars] at h2
      | cons c cs =>
        rw [leChars_cons] at h1 h2 ⊢
        rcases h1 with h1 | ⟨h1e, h1r⟩
        · rcases h2 with h2 | ⟨h2e, _⟩
          · left; omega
          · left; omega
        · rcases h2 with h2 | ⟨h2e, h2r⟩
          · left; omega
          · right; exact ⟨by omega, ih h1r h2r⟩

theorem charEq_of_toNat {a b : Char} (h : a.toNat = b.toNat) : a = b :=
  Char.ext (UInt32.toNat.inj h)

theorem leChars_antisymm {as bs : List Char} (h1 : leChars as bs = true)
    (h2 : leChars bs as = true) : as = bs := by
  induction as generalizing bs with
  | nil =>
    cases bs with
    | nil => rfl
    | cons b bs => simp [leChars] at h2
  | cons a as ih =>
    cases bs with
    | nil => simp [leChars] at h1
    | cons b bs =>
      rw [leChars_cons] at h1 h2
      rcases h1 with h1 | ⟨h1e, h1r⟩
      · rcases h2 with h2 | ⟨h2e, _⟩
        · omega
        · omega
      · rcases h2 with h2 | ⟨h2e, h2r⟩
        · omega
        · rw [charEq_of_toNat h1e, ih h1r h2r]

instance : IsTotal String strLe := ⟨fun a b => leChars_total a.data b.data⟩

instance : IsTrans String strLe := ⟨fun _ _ _ => leChars_trans⟩

instance : IsAntisymm String strLe :=
  ⟨fun a b h1 h2 => by
    cases a; cases b
    exact congrArg String.mk (leChars_antisymm h1 h2)⟩

/-- `sort.Strings` (the unique non-decreasing permutation). -/
def sortStrings (l : List String) : List String := l.insertionSort strLe

/-! ### base64 (encoding/base64 StdEncoding) and UTF-8 bytes -/

/-- The standard base64 alphabet. -/
def base64Alphabet : List Char :=
  "ABCDEFGHIJKLMNOPQRSTUVWXYZabcdefghijklmnopqrstuvwxyz0123456789+/".data

/-- Character for a 6-bit group. -/
def b64c (n : Nat) : Char := base64Alphabet.getD n '='

/-- Standard base64 of a byte list, with `=` padding, three input bytes at a time. -/
def base64Chunks : List Nat → List Char
  | [] => []
  | [a] => [b64c (a / 4), b64c (a % 4 * 16), '=', '=']
  | [a, b] => [b64c (a / 4), b64c (a % 4 * 16 + b / 16), b64c (b % 16 * 4), '=']
  | a :: b :: c :: rest =>
    b64c (a / 4) :: b64c (a % 4 * 16 + b / 16) :: b64c (b % 16 * 4 + c / 64) ::
      b64c (c % 64) :: base64Chunks rest

/-- `base64.StdEncoding.EncodeToString`. -/
def base64Encode (bs : List Nat) : String := String.mk (base64Chunks bs)

/-- UTF-8 encoding of one code point (what `[]byte(s)` produces per char in Go). -/
def utf8Bytes (c : Char) : List Nat :=
  let n := c.toNat
  if n < 128 then [n]
  else if n < 2048 then [192 + n / 64, 128 + n % 64]
  else if n < 65536 then [224 + n / 4096, 128 + n / 64 % 64, 128 + n % 64]
  else [240 + n / 262144, 128 + n / 4096 % 64, 128 + n / 64 % 64, 128 + n % 64]

/-- The byte content of a Go string. -/
def strBytes (s : String) : List Nat := (s.data.map utf8Bytes).flatten

/-- The chat-id computation inside `buildChat` (store.go):
`base64(strings.Join(sort.Strings(userIds), "_"))`. -/
def chatIdOfIds (ids : List String) : String :=
  base64Encode (strBytes (String.intercalate "_" (sortStrings ids)))

/-! ### The in-memory Store (client/infra/data/inmemory/store.go) -/

/-- The sentinel errors of client/infra/data (ChatNotFoundErr, UserNotInChatErr,
WrongNewChatUsersErr). -/
inductive StoreErr where
  | ChatNotFoundErr
  | UserNotInChatErr
  | WrongNewChatUsersErr
deriving DecidableEq, Repr

/-- The persistent fields of `store`: the current user and the chats map.
Mutexes, channels and listener lists carry no chat data and are omitted. -/
structure Store where
  currentUser : User
  chats : List (String × Chat)
deriving DecidableEq, Repr

/-- `store.CurrentUser`. -/
def Store.CurrentUser (s : Store) : User := s.currentUser

/-- Message order used by `AddChatLine`'s `sort.Slice(..., At.Before ...)`:
the sorted result is non-decreasing in `At`. -/
def msgLe (a b : Message) : Prop := a.At ≤ b.At

instance : DecidableRel msgLe := fun a b => inferInstanceAs (Decidable (a.At ≤ b.At))

instance : IsTotal Message msgLe := ⟨fun a b => Nat.le_total a.At b.At⟩

instance : IsTrans Message msgLe := ⟨fun _ _ _ => Nat.le_trans⟩

/-- The re-sort of a chat's content performed by `AddChatLine`. -/
def sortByAt (l : List Message) : List Message := l.insertionSort msgLe

/-- `store.buildChat`: rejects any supplied user equal to the current user,
otherwise assembles the chat with the deterministic id, empty content and
`Offline = false`. -/
def Store.buildChat (s : Store) (users : List User) : Except StoreErr Chat :=
  if users.any (fun u => u.Id = s.currentUser.Id) then
    .error .WrongNewChatUsersErr
  else
    .ok { Id := chatIdOfIds (s.currentUser.Id :: users.map User.Id),
          OwnerUser := s.currentUser,
          Users := users,
          Content := [],
          Offline := false }

/-- The value `store.storeChat` actually writes: the argument chat, with the
content already stored under its id kept. -/
def storeChatVal (s : Store) (chat : Chat) : Chat :=
  match mapGet s.chats chat.Id with
  | some c => { chat with Content := c.Content }
  | none => chat

/-- `store.storeChat`: keeps the content already stored under the chat's id,
then writes the chat under its id. -/
def Store.storeChat (s : Store) (chat : Chat) : Store :=
  { s with chats := mapPut s.chats chat.Id (storeChatVal s chat) }

/-- `store.AddChatLine`: chat lookup, roster lookup, overwrite of `UserName`
from the roster, append and re-sort by `At`. -/
def Store.AddChatLine (s : Store) (m : Message) : Except StoreErr Store :=
  match mapGet s.chats m.ChatId with
  | none => .error .ChatNotFoundErr
  | some c =>
    match c.GetUser m.UserId with
    | none => .error .UserNotInChatErr
    | some u =>
      let m2 := { m with UserName := u.Name }
      let c2 := { c with Content := sortByAt (c.Content ++ [m2]) }
      .ok { s with chats := mapPut s.chats m.ChatId c2 }

/-- `store.GetChat`. -/
def Store.GetChat (s : Store) (chatId : String) : Except StoreErr Chat :=
  match mapGet s.chats chatId with
  | some c => .ok c
  | none => .error .ChatNotFoundErr

/-- The first loop of `RefreshUsers`: for each user, skip it when it is the
current user, otherwise build its chat, drop the chat's id from the snapshot
and store the chat.  A build error stops the loop (the store mutated so far is
kept, as in the source). -/
def refreshLoop (cu : User) :
    List User → Store → List (String × Chat) → Store × List (String × Chat) × Option StoreErr
  | [], s, snap => (s, snap, none)
  | u :: us, s, snap =>
    if u.Id = cu.Id then refreshLoop cu us s snap
    else
      match s.buildChat [u] with
      | .error e => (s, snap, some e)
      | .ok chat => refreshLoop cu us (s.storeChat chat) (mapDel snap chat.Id)

/-- The second loop of `RefreshUsers`: every chat left in the snapshot is
re-stored with `Offline = true`.  Go iterates the snapshot map in unspecified
order; the writes hit pairwise distinct keys, so list order is a faithful
choice. -/
def markOffline : Store → List (String × Chat) → Store
  | s, [] => s
  | s, p :: ps => markOffline (s.storeChat { p.2 with Offline := true }) ps

/-- `store.RefreshUsers`.  The Go method mutates the receiver and returns an
error; here the (possibly partially updated) store is returned together with
the optional error. -/
def Store.RefreshUsers (s : Store) (users : List User) : Store × Option StoreErr :=
  match refreshLoop s.currentUser users s s.chats with
  | (s2, rem, none) => (markOffline s2 rem, none)
  | (s2, _, some e) => (s2, some e)

/-! ### Wire codec (client/infra/socket/conn/socket.go) -/

/-- `conn.NetworkMsg`. -/
structure NetworkMsg where
  UserId : String
  ChatId : String
  Message : String
  At : Nat
deriving DecidableEq, Repr

/-- The distinct error outcomes of `ReadNetworkMessage`:
`eofErr` is `io.EOF`; `unexpectedEofErr` is `io.ErrUnexpectedEOF`;
`wrongSizeCount` is the "wrong number of bytes read" error; `sizeUnparseable`
is "invalid content message as the size of the message is unparseable";
`decodeFailed` carries the decoder's error. -/
inductive ReadErr where
  | eofErr
  | unexpectedEofErr
  | wrongSizeCount
  | sizeUnparseable
  | decodeFailed (e : String)
deriving DecidableEq, Repr

/-- What `ReadNetworkMessage` can do: return a message, return an error, or
abort the program (the `make([]byte, size)` panic on a negative size). -/
inductive ReadOutcome where
  | ok (m : NetworkMsg)
  | err (e : ReadErr)
  | panicked
deriving DecidableEq, Repr

/-- `io.ReadFull` on a byte stream: all `n` bytes when available, `io.EOF` when
nothing could be read, `io.ErrUnexpectedEOF` on a partial read. -/
def readFull (s : List Nat) (n : Nat) : Except ReadErr (List Nat × List Nat) :=
  if n ≤ s.length then .ok (s.take n, s.drop n)
  else if s.length = 0 then .error .eofErr
  else .error .unexpectedEofErr

/-- ASCII decimal digit test. -/
def isDigit (b : Nat) : Bool := decide (48 ≤ b) && decide (b ≤ 57)

/-- Value of a digit string, most significant first. -/
def digitsFold (bs : List Nat) : Nat := bs.foldl (fun acc b => acc * 10 + (b - 48)) 0

/-- Digits-only parse: at least one byte, all ASCII digits. -/
def digitsVal : List Nat → Option Nat
  | [] => none
  | b :: rest =>
    if (b :: rest).all isDigit then some (digitsFold (b :: rest)) else none

/-- `strconv.Atoi` on the bytes of a short string: optional single sign, then
one or more decimal digits (five bytes can never overflow). -/
def atoi : List Nat → Option Int
  | [] => none
  | b :: rest =>
    if b = 43 then (digitsVal rest).map Int.ofNat
    else if b = 45 then (digitsVal rest).map (fun n => -(Int.ofNat n))
    else (digitsVal (b :: rest)).map Int.ofNat

/-- `conn.ReadNetworkMessage`, with the gob decoder abstracted as `decode`.
The `size < 0` branch is the Go `make([]byte, size)` run-time panic
("makeslice: len out of range"): `strconv.Atoi` accepts a leading minus sign,
and the size is used unchecked to allocate the payload buffer. -/
def ReadNetworkMessage (decode : List Nat → Except String NetworkMsg)
    (input : List Nat) : ReadOutcome :=
  match readFull input 5 with
  | .error e => .err e
  | .ok (sizeRead, rest) =>
    if sizeRead.length ≠ 5 then .err .wrongSizeCount
    else
      match atoi sizeRead with
      | none => .err .sizeUnparseable
      | some size =>
        if size < 0 then .panicked
        else
          match readFull rest size.toNat with
          | .error e => .err e
          | .ok (msg, _) =>
            match decode msg with
            | .error e => .err (.decodeFailed e)
            | .ok m => .ok m

/-- Decimal digits of a number, most significant first (fuel-driven so that the
definition computes; `natDigits` below always supplies enough fuel). -/
def natDigitsAux : Nat → Nat → List Nat
  | 0, _ => []
  | fuel + 1, n =>
    if n < 10 then [48 + n] else natDigitsAux fuel (n / 10) ++ [48 + n % 10]

/-- Decimal ASCII digits of `n`. -/
def natDigits (n : Nat) : List Nat := natDigitsAux (n + 1) n

/-- `fmt.Sprintf("%05d", n)`: zero-pad the decimal form on the left to width 5. -/
def sizeStr5 (n : Nat) : List Nat :=
  List.replicate (5 - (natDigits n).length) 48 ++ natDigits n

/-- The framing side of `connection.writeToConn` (the part after a successful
gob encode): drop payloads larger than 65535 bytes, otherwise prepend the
5-byte zero-padded decimal length. -/
def writeFrame (encode : NetworkMsg → List Nat) (m : NetworkMsg) : Option (List Nat) :=
  let msgEncoded := encode m
  if msgEncoded.length > 65535 then none
  else some (sizeStr5 msgEncoded.length ++ msgEncoded)

/-! ### Directory (directory/domain/client.go, directory/infra/http/handler.go) -/

/-- `domain.Client` on the Directory side (`IP` is serialized as "address"). -/
structure Client where
  ID : String
  Name : String
  IP : String
  Port : Int
deriving DecidableEq, Repr

/-- Whitespace per Go `unicode.IsSpace`: the Unicode White_Space property —
TAB..CR and SPACE, NEL (U+0085), NBSP (U+00A0), OGHAM SPACE MARK (U+1680),
the EN QUAD..HAIR SPACE range (U+2000–U+200A), LINE SEPARATOR (U+2028),
PARAGRAPH SEPARATOR (U+2029), NARROW NO-BREAK SPACE (U+202F), MEDIUM
MATHEMATICAL SPACE (U+205F) and IDEOGRAPHIC SPACE (U+3000). -/
def isSpaceChar (c : Char) : Bool :=
  decide (c.toNat ∈ [9, 10, 11, 12, 13, 32, 0x85, 0xA0, 0x1680,
    0x2000, 0x2001, 0x2002, 0x2003, 0x2004, 0x2005, 0x2006, 0x2007, 0x2008,
    0x2009, 0x200A, 0x2028, 0x2029, 0x202F, 0x205F, 0x3000])

/-- `strings.TrimSpace`. -/
def trimSpace (s : String) : String :=
  String.mk (((s.data.dropWhile isSpaceChar).reverse.dropWhile isSpaceChar).reverse)

/-- `Client.Validate`: the admission checks, in source order, with the exact
error messages. -/
def Client.Validate (c : Client) : Option String :=
  if trimSpace c.ID = "" then some "client id empty"
  else if trimSpace c.Name = "" then some "client name empty"
  else if trimSpace c.IP = "" then some "client ip empty"
  else if c.Port < 1000 then some "invalid client port"
  else none

/-- Outcome of the PUT /ping handler on a decoded body: HTTP 400 with a JSON
body, or HTTP 200 with the record admitted to the registry. -/
inductive PingResponse where
  | badRequest (body : String)
  | okRegistered (registry : List (String × Client))
deriving DecidableEq, Repr

/-- The 400 body built by `registerPingHandler`:
`fmt.Sprintf(... message ...)` around the validation error. -/
def jsonMessageBody (reason : String) : String :=
  "\x7b\"message\": \"" ++ reason ++ "\"\x7d"

/-- Modelled from the spec: the Directory `app` package (`RegisterClient` and
the expiring registry behind it) is not under src/.  Per §4.1 of the spec,
`put(id, record)` inserts or replaces the record and never fails at the data
layer; the expiry timestamp plays no role in admission and is omitted. -/
def registryPut (reg : List (String × Client)) (c : Client) : List (String × Client) :=
  mapPut reg c.ID c

/-- The validation-and-register path of `registerPingHandler` (handler.go),
starting from the decoded request body. -/
def registerPingHandler (reg : List (String × Client)) (c : Client) : PingResponse :=
  match c.Validate with
  | some reason => .badRequest (jsonMessageBody reason)
  | none => .okRegistered (registryPut reg c)

/-! ### Lemmas about the map model -/

theorem mapGet_mapPut_eq {α : Type} (m : List (String × α)) (k : String) (v : α) :
    mapGet (mapPut m k v) k = some v := by
  induction m with
  | nil => simp [mapPut, mapGet]
  | cons p ps ih =>
    by_cases h : p.1 = k
    · simp [mapPut, h, mapGet]
    · simp [mapPut, h, mapGet, ih]

theorem mapGet_mapPut_ne {α : Type} (m : List (String × α)) (k k' : String) (v : α)
    (h : k' ≠ k) : mapGet (mapPut m k v) k' = mapGet m k' := by
  induction m with
  | nil => simp [mapPut, mapGet, Ne.symm h]
  | cons p ps ih =>
    by_cases hpk : p.1 = k
    · have h1 : ¬ (k = k') := Ne.symm h
      have h2 : ¬ (p.1 = k') := by rw [hpk]; exact h1
      simp [mapPut, hpk, mapGet, h1, h2]
    · simp only [mapPut, if_neg hpk]
      by_cases hpk' : p.1 = k'
      · simp only [mapGet, if_pos hpk']
      · simp only [mapGet, if_neg hpk', ih]

theorem mapGet_mapDel_eq {α : Type} (m : List (String × α)) (k : String) :
    mapGet (mapDel m k) k = none := by
  induction m with
  | nil => rfl
  | cons p ps ih =>
    by_cases h : p.1 = k
    · simp [mapDel, h, ih]
    · simp [mapDel, h, mapGet, ih]

theorem mapGet_mapDel_ne {α : Type} (m : List (String × α)) (k k' : String)
    (h : k' ≠ k) : mapGet (mapDel m k) k' = mapGet m k' := by
  induction m with
  | nil => rfl
  | cons p ps ih =>
    by_cases hpk : p.1 = k
    · have h1 : ¬ (p.1 = k') := by rw [hpk]; exact Ne.symm h
      simp [mapDel, hpk, mapGet, Ne.symm h, h1, ih]
    · simp [mapDel, hpk, mapGet, ih]

theorem mapGet_mem {α : Type} {m : List (String × α)} {k : String} {v : α}
    (h : mapGet m k = some v) : (k, v) ∈ m := by
  induction m with
  | nil => simp [mapGet] at h
  | cons p ps ih =>
    obtain ⟨pk, pv⟩ := p
    by_cases hpk : pk = k
    · rw [mapGet, if_pos hpk] at h
      injection h with h
      subst hpk
      subst h
      exact List.mem_cons_self _ _
    · rw [mapGet, if_neg hpk] at h
      exact List.mem_cons_of_mem _ (ih h)

theorem mapGet_key_mem {α : Type} {m : List (String × α)} {k : String} {v : α}
    (h : mapGet m k = some v) : k ∈ mapKeys m :=
  List.mem_map.mpr ⟨(k, v), mapGet_mem h, rfl⟩

theorem mapGet_eq_none_of_not_mem {α : Type} {m : List (String × α)} {k : String}
    (h : k ∉ mapKeys m) : mapGet m k = none := by
  induction m with
  | nil => rfl
  | cons p ps ih =>
    have h1 : ¬ (p.1 = k) := by
      intro he
      exact h (List.mem_map.mpr ⟨p, List.mem_cons_self _ _, he⟩)
    have h2 : k ∉ mapKeys ps := by
      intro he
      rcases List.mem_map.mp he with ⟨q, hq, hq1⟩
      exact h (List.mem_map.mpr ⟨q, List.mem_cons_of_mem _ hq, hq1⟩)
    simp [mapGet, h1, ih h2]

theorem mem_mapPut {α : Type} {m : List (String × α)} {k : String} {v : α} {p : String × α}
    (h : p ∈ mapPut m k v) : p = (k, v) ∨ p ∈ m := by
  induction m with
  | nil => simpa [mapPut] using h
  | cons q qs ih =>
    by_cases hqk : q.1 = k
    · simp [mapPut, hqk] at h
      rcases h with h | h
      · left; exact h
      · right; simp [h]
    · simp [mapPut, hqk] at h
      rcases h with h | h
      · right; simp [h]
      · rcases ih h with h2 | h2
        · left; exact h2
        · right; simp [h2]

theorem mapKeys_cons {α : Type} (p : String × α) (ps : List (String × α)) :
    mapKeys (p :: ps) = p.1 :: mapKeys ps := rfl

theorem mapKeys_mapPut_eq {α : Type} (m : List (String × α)) (k : String) (v : α) :
    mapKeys (mapPut m k v) = if k ∈ mapKeys m then mapKeys m else mapKeys m ++ [k] := by
  induction m with
  | nil => simp [mapPut, mapKeys]
  | cons p ps ih =>
    by_cases hpk : p.1 = k
    · have hmem : k ∈ mapKeys (p :: ps) := by
        rw [mapKeys_cons, hpk]
        exact List.mem_cons_self _ _
      rw [if_pos hmem]
      have hput : mapPut (p :: ps) k v = (k, v) :: ps := by
        simp only [mapPut, if_pos hpk]
      rw [hput, mapKeys_cons, mapKeys_cons, hpk]
    · by_cases hk : k ∈ mapKeys ps
      · have hmem : k ∈ mapKeys (p :: ps) := by
          rw [mapKeys_cons]
          exact List.mem_cons_of_mem _ hk
        rw [if_pos hmem]
        simp only [mapPut, if_neg hpk, mapKeys_cons]
        rw [ih, if_pos hk]
      · have hmem : k ∉ mapKeys (p :: ps) := by
          rw [mapKeys_cons]
          intro hmm
          rcases List.mem_cons.mp hmm with h1 | h1
          · exact hpk h1.symm
          · exact hk h1
        rw [if_neg hmem]
        simp only [mapPut, if_neg hpk, mapKeys_cons, List.cons_append]
        rw [ih, if_neg hk]

theorem mapKeys_mapPut {α : Type} (m : List (String × α)) (k : String) (v : α)
    (h : (mapKeys m).Nodup) : (mapKeys (mapPut m k v)).Nodup := by
  rw [mapKeys_mapPut_eq]
  by_cases hk : k ∈ mapKeys m
  · simpa [hk] using h
  · rw [if_neg hk]
    refine List.Nodup.append h (List.nodup_singleton k) ?_
    intro a ha hb
    rw [List.mem_singleton.mp hb] at ha
    exact hk ha

theorem mapDel_sublist {α : Type} (m : List (String × α)) (k : String) :
    (mapDel m k).Sublist m := by
  induction m with
  | nil => simp [mapDel]
  | cons p ps ih =>
    by_cases hpk : p.1 = k
    · simp only [mapDel, if_pos hpk]
      exact ih.trans (List.sublist_cons_self p ps)
    · simp only [mapDel, if_neg hpk]
      exact ih.cons₂ p

theorem mapKeys_mapDel {α : Type} (m : List (String × α)) (k : String)
    (h : (mapKeys m).Nodup) : (mapKeys (mapDel m k)).Nodup :=
  ((mapDel_sublist m k).map Prod.fst).nodup h

theorem mem_mapDel {α : Type} {m : List (String × α)} {k : String} {p : String × α}
    (h : p ∈ mapDel m k) : p ∈ m :=
  (mapDel_sublist m k).mem h

/-! ### Well-formedness: the representation invariant of the Go chats map -/

/-- A faithful image of a Go `map[string]domain.Chat` as used by the store:
keys are unique, and every chat is stored under its own id (every write in
store.go uses `chat.Id` as the key). -/
def WfMap (m : List (String × Chat)) : Prop :=
  (mapKeys m).Nodup ∧ ∀ p ∈ m, p.2.Id = p.1

/-- Well-formed store. -/
def WfStore (s : Store) : Prop := WfMap s.chats

theorem WfMap.id_of_get {m : List (String × Chat)} (h : WfMap m) {k : String} {c : Chat}
    (hg : mapGet m k = some c) : c.Id = k :=
  h.2 (k, c) (mapGet_mem hg)

theorem WfMap.mapPut {m : List (String × Chat)} (h : WfMap m) (k : String) {c : Chat}
    (hid : c.Id = k) : WfMap (GoChat.mapPut m k c) := by
  refine ⟨mapKeys_mapPut m k c h.1, ?_⟩
  intro p hp
  rcases mem_mapPut hp with rfl | hp2
  · exact hid
  · exact h.2 p hp2

theorem WfMap.mapDel {m : List (String × Chat)} (h : WfMap m) (k : String) :
    WfMap (GoChat.mapDel m k) :=
  ⟨mapKeys_mapDel m k h.1, fun p hp => h.2 p (mem_mapDel hp)⟩

/-! ### Pointwise behaviour of the store operations -/

/-- The message content currently stored under a chat id (empty when absent);
this is what `storeChat` preserves. -/
def contentAt (s : Store) (k : String) : List Message :=
  match mapGet s.chats k with
  | some c => c.Content
  | none => []

theorem storeChat_currentUser (s : Store) (c : Chat) :
    (s.storeChat c).currentUser = s.currentUser := rfl

theorem storeChatVal_Id (s : Store) (c : Chat) : (storeChatVal s c).Id = c.Id := by
  unfold storeChatVal
  cases mapGet s.chats c.Id <;> rfl

theorem storeChatVal_of_get {s : Store} {c c0 : Chat} (hg : mapGet s.chats c.Id = some c0) :
    storeChatVal s c = { c with Content := c0.Content } := by
  unfold storeChatVal
  rw [hg]

theorem storeChatVal_of_none {s : Store} {c : Chat} (hg : mapGet s.chats c.Id = none) :
    storeChatVal s c = c := by
  unfold storeChatVal
  rw [hg]

theorem storeChat_get (s : Store) (c : Chat) (k : String) :
    mapGet (s.storeChat c).chats k =
      if k = c.Id then some (storeChatVal s c) else mapGet s.chats k := by
  by_cases h : k = c.Id
  · subst h
    simp [Store.storeChat, mapGet_mapPut_eq]
  · simp [Store.storeChat, mapGet_mapPut_ne _ _ _ _ h, h]

theorem storeChat_wf {s : Store} (h : WfStore s) (c : Chat) : WfStore (s.storeChat c) := by
  refine ⟨mapKeys_mapPut _ _ _ h.1, ?_⟩
  intro p hp
  rcases mem_mapPut hp with rfl | hp2
  · exact storeChatVal_Id s c
  · exact h.2 p hp2

theorem contentAt_storeChat (s : Store) (c : Chat) (hc : c.Content = []) (k : String) :
    contentAt (s.storeChat c) k = contentAt s k := by
  unfold contentAt
  rw [storeChat_get]
  by_cases h : k = c.Id
  · subst h
    cases hg : mapGet s.chats c.Id with
    | some c0 => simp [storeChatVal_of_get hg]
    | none => simp [storeChatVal_of_none hg, hc]
  · simp [h]

/-! ### Characterisation of RefreshUsers -/

/-- The chat id `buildChat` computes for a chat between the current user and
one other user. -/
def pairChatId (cu u : User) : String := chatIdOfIds [cu.Id, u.Id]

/-- The chat record `buildChat` assembles for one other user. -/
def freshChat (cu u : User) : Chat :=
  { Id := pairChatId cu u, OwnerUser := cu, Users := [u], Content := [], Offline := false }

/-- The last user of the list that `RefreshUsers` builds a chat with id `k`
for (later users override earlier ones at the same key). -/
def lastBuilt (cu : User) : List User → String → Option User
  | [], _ => none
  | u :: us, k =>
    match lastBuilt cu us k with
    | some v => some v
    | none => if u.Id ≠ cu.Id ∧ pairChatId cu u = k then some u else none

theorem lastBuilt_spec {cu : User} {us : List User} {k : String} {u : User}
    (h : lastBuilt cu us k = some u) :
    u ∈ us ∧ u.Id ≠ cu.Id ∧ pairChatId cu u = k := by
  induction us with
  | nil => simp [lastBuilt] at h
  | cons w ws ih =>
    rw [lastBuilt] at h
    cases hws : lastBuilt cu ws k with
    | some v =>
      rw [hws] at h
      injection h with h
      subst h
      rcases ih hws with ⟨h1, h2, h3⟩
      exact ⟨List.mem_cons_of_mem _ h1, h2, h3⟩
    | none =>
      rw [hws] at h
      by_cases hc : w.Id ≠ cu.Id ∧ pairChatId cu w = k
      · rw [if_pos hc] at h
        injection h with h
        subst h
        exact ⟨List.mem_cons_self _ _, hc.1, hc.2⟩
      · rw [if_neg hc] at h
        exact absurd h (by simp)

theorem lastBuilt_isSome_of_mem {cu : User} {us : List User} {u : User}
    (hm : u ∈ us) (hne : u.Id ≠ cu.Id) : (lastBuilt cu us (pairChatId cu u)).isSome := by
  induction us with
  | nil => simp at hm
  | cons w ws ih =>
    rw [lastBuilt]
    cases hws : lastBuilt cu ws (pairChatId cu u) with
    | some v => rfl
    | none =>
      rcases List.mem_cons.mp hm with rfl | hm2
      · rw [if_pos ⟨hne, rfl⟩]
        rfl
      · have := ih hm2
        rw [hws] at this
        simp at this

theorem storeChatVal_freshChat (s : Store) (cu u : User) :
    storeChatVal s (freshChat cu u) =
      { freshChat cu u with Content := contentAt s (freshChat cu u).Id } := by
  unfold storeChatVal contentAt
  cases mapGet s.chats (freshChat cu u).Id <;> rfl

theorem buildChat_single {s : Store} {u : User} (h : u.Id ≠ s.currentUser.Id) :
    s.buildChat [u] = .ok (freshChat s.currentUser u) := by
  unfold Store.buildChat
  rw [if_neg (by simpa using h)]
  rfl

theorem buildChat_error {s : Store} {users : List User} {u : User}
    (hm : u ∈ users) (h : u.Id = s.currentUser.Id) :
    s.buildChat users = .error .WrongNewChatUsersErr := by
  unfold Store.buildChat
  rw [if_pos (List.any_eq_true.mpr ⟨u, hm, by simpa using h⟩)]

/-- The first loop of `RefreshUsers`, characterised pointwise: it never
errors, keeps the current user, keeps well-formedness, writes exactly the
freshly built chats (last write wins, stored content preserved), and removes
exactly the built ids from the snapshot. -/
theorem refreshLoop_spec (cu : User) (us : List User) :
    ∀ (s : Store) (snap : List (String × Chat)), s.currentUser = cu → WfStore s →
      WfMap snap →
      (refreshLoop cu us s snap).2.2 = none ∧
      (refreshLoop cu us s snap).1.currentUser = cu ∧
      WfStore (refreshLoop cu us s snap).1 ∧
      WfMap (refreshLoop cu us s snap).2.1 ∧
      (∀ k, mapGet (refreshLoop cu us s snap).1.chats k =
        match lastBuilt cu us k with
        | some u => some { freshChat cu u with Content := contentAt s k }
        | none => mapGet s.chats k) ∧
      (∀ k, mapGet (refreshLoop cu us s snap).2.1 k =
        if (lastBuilt cu us k).isSome then none else mapGet snap k) := by
  induction us with
  | nil =>
    intro s snap hcu hws hwm
    refine ⟨rfl, hcu, hws, hwm, ?_, ?_⟩
    · intro k
      simp [refreshLoop, lastBuilt]
    · intro k
      simp [refreshLoop, lastBuilt]
  | cons u us ih =>
    intro s snap hcu hws hwm
    by_cases hid : u.Id = cu.Id
    · have hstep : refreshLoop cu (u :: us) s snap = refreshLoop cu us s snap := by
        rw [refreshLoop, if_pos hid]
      rcases ih s snap hcu hws hwm with ⟨h1, h2, h3, h4, h5, h6⟩
      refine ⟨hstep ▸ h1, hstep ▸ h2, hstep ▸ h3, hstep ▸ h4, ?_, ?_⟩
      · intro k
        rw [hstep, h5 k, lastBuilt]
        cases hlb : lastBuilt cu us k with
        | some v => rfl
        | none => simp [hid]
      · intro k
        rw [hstep, h6 k, lastBuilt]
        cases hlb : lastBuilt cu us k with
        | some v => rfl
        | none => simp [hid]
    · have hne : u.Id ≠ s.currentUser.Id := by rw [hcu]; exact hid
      have hstep : refreshLoop cu (u :: us) s snap =
          refreshLoop cu us (s.storeChat (freshChat cu u))
            (mapDel snap (freshChat cu u).Id) := by
        rw [refreshLoop, if_neg hid, buildChat_single hne, hcu]
      have hws2 : WfStore (s.storeChat (freshChat cu u)) := storeChat_wf hws _
      have hwm2 : WfMap (mapDel snap (freshChat cu u).Id) := hwm.mapDel _
      rcases ih (s.storeChat (freshChat cu u)) (mapDel snap (freshChat cu u).Id)
        (by rw [storeChat_currentUser, hcu]) hws2 hwm2 with ⟨h1, h2, h3, h4, h5, h6⟩
      refine ⟨hstep ▸ h1, hstep ▸ h2, hstep ▸ h3, hstep ▸ h4, ?_, ?_⟩
      · intro k
        rw [hstep, h5 k, lastBuilt]
        cases hlb : lastBuilt cu us k with
        | some v =>
          rw [contentAt_storeChat s (freshChat cu u) rfl k]
        | none =>
          by_cases hc : u.Id ≠ cu.Id ∧ pairChatId cu u = k
          · have hk : k = (freshChat cu u).Id := hc.2.symm
            rw [storeChat_get, if_pos hk, storeChatVal_freshChat, ← hk, if_pos hc]
          · have hkne : k ≠ (freshChat cu u).Id := fun hk2 => hc ⟨hid, hk2.symm⟩
            rw [storeChat_get, if_neg hkne, if_neg hc]
      · intro k
        rw [hstep, h6 k, lastBuilt]
        cases hlb : lastBuilt cu us k with
        | some v => rfl
        | none =>
          by_cases hc : u.Id ≠ cu.Id ∧ pairChatId cu u = k
          · have hk : k = (freshChat cu u).Id := hc.2.symm
            rw [hk, mapGet_mapDel_eq, ← hk, if_pos hc]
            simp
          · have hkne : k ≠ (freshChat cu u).Id := fun hk2 => hc ⟨hid, hk2.symm⟩
            rw [mapGet_mapDel_ne _ _ _ hkne, if_neg hc]

/-- The second loop of `RefreshUsers`, characterised pointwise: every chat of
the remainder snapshot is re-stored with `Offline := true` (content kept,
which is the stored content since the snapshot entries agree with the store);
all other keys are untouched. -/
theorem markOffline_spec :
    ∀ (rem : List (String × Chat)) (s : Store), WfMap rem →
      (∀ k c, mapGet rem k = some c → mapGet s.chats k = some c) →
      (markOffline s rem).currentUser = s.currentUser ∧
      (WfStore s → WfStore (markOffline s rem)) ∧
      ∀ k, mapGet (markOffline s rem).chats k =
        match mapGet rem k with
        | some c => some { c with Offline := true }
        | none => mapGet s.chats k := by
  intro rem
  induction rem with
  | nil =>
    intro s _ _
    exact ⟨rfl, fun h => h, fun k => by rw [markOffline, mapGet]⟩
  | cons p ps ih =>
    intro s hwm hagree
    obtain ⟨k0, c0⟩ := p
    have hk0 : c0.Id = k0 := hwm.2 (k0, c0) (List.mem_cons_self _ _)
    have hget0 : mapGet ((k0, c0) :: ps) k0 = some c0 := by
      rw [mapGet, if_pos rfl]
    have hs0 : mapGet s.chats k0 = some c0 := hagree k0 c0 hget0
    have hkeys : k0 ∉ mapKeys ps := by
      have := hwm.1
      rw [mapKeys_cons] at this
      exact (List.nodup_cons.mp this).1
    have hwm2 : WfMap ps := by
      constructor
      · have h1n := hwm.1
        rw [mapKeys_cons] at h1n
        exact (List.nodup_cons.mp h1n).2
      · exact fun q hq => hwm.2 q (List.mem_cons_of_mem _ hq)
    have hstep : markOffline s ((k0, c0) :: ps) =
        markOffline (s.storeChat { c0 with Offline := true }) ps := by
      rw [markOffline]
    have hval : storeChatVal s { c0 with Offline := true } = { c0 with Offline := true } := by
      have hgid : mapGet s.chats ({ c0 with Offline := true } : Chat).Id = some c0 := by
        show mapGet s.chats c0.Id = some c0
        rw [hk0]
        exact hs0
      rw [storeChatVal_of_get hgid]
    have hagree2 : ∀ k c, mapGet ps k = some c →
        mapGet (s.storeChat { c0 with Offline := true }).chats k = some c := by
      intro k c hgc
      have hkne : k ≠ ({ c0 with Offline := true } : Chat).Id := by
        show k ≠ c0.Id
        rw [hk0]
        intro hke
        exact hkeys (hke ▸ mapGet_key_mem hgc)
      rw [storeChat_get, if_neg hkne]
      refine hagree k c ?_
      have hkne0 : ¬ (k0 = k) := by
        intro hke
        exact hkeys (hke ▸ mapGet_key_mem hgc)
      rw [mapGet, if_neg hkne0]
      exact hgc
    rcases ih (s.storeChat { c0 with Offline := true }) hwm2 hagree2 with ⟨h1, h2, h3⟩
    refine ⟨?_, ?_, ?_⟩
    · rw [hstep, h1, storeChat_currentUser]
    · intro hws
      rw [hstep]
      exact h2 (storeChat_wf hws _)
    · intro k
      rw [hstep, h3 k]
      by_cases hk : k = k0
      · subst hk
        rw [mapGet_eq_none_of_not_mem hkeys, hget0]
        rw [storeChat_get,
          if_pos (show k = ({ c0 with Offline := true } : Chat).Id from hk0.symm), hval]
      · have hrem : mapGet ((k0, c0) :: ps) k = mapGet ps k := by
          rw [mapGet, if_neg (fun hke : k0 = k => hk hke.symm)]
        rw [hrem]
        cases hgc : mapGet ps k with
        | some c => rfl
        | none =>
          have hkne : k ≠ ({ c0 with Offline := true } : Chat).Id := by
            show k ≠ c0.Id
            rw [hk0]
            exact hk
          rw [storeChat_get, if_neg hkne]

/-- Full pointwise characterisation of `Store.RefreshUsers` on a well-formed
store: it never errors; the current user is unchanged; well-formedness is
kept; and the final chats map holds, at key `k`: the freshly built chat of the
last supplied user whose pair id is `k` (with the previously stored content),
else the pre-existing chat flipped to `Offline := true`, else nothing. -/
theorem RefreshUsers_spec (s : Store) (users : List User) (h : WfStore s) :
    (s.RefreshUsers users).2 = none ∧
    (s.RefreshUsers users).1.currentUser = s.currentUser ∧
    WfStore (s.RefreshUsers users).1 ∧
    ∀ k, mapGet (s.RefreshUsers users).1.chats k =
      match lastBuilt s.currentUser users k with
      | some u => some { freshChat s.currentUser u with Content := contentAt s k }
      | none =>
        match mapGet s.chats k with
        | some c => some { c with Offline := true }
        | none => none := by
  rcases hE : refreshLoop s.currentUser users s s.chats with ⟨s2, rem, oe⟩
  have hspec := refreshLoop_spec s.currentUser users s s.chats rfl h h
  rw [hE] at hspec
  rcases hspec with ⟨h1, h2, h3, h4, h5, h6⟩
  have hoe : oe = none := h1
  subst hoe
  have hRU : s.RefreshUsers users = (markOffline s2 rem, none) := by
    unfold Store.RefreshUsers
    rw [hE]
  have hagree : ∀ k c, mapGet rem k = some c → mapGet s2.chats k = some c := by
    intro k c hgc
    have h6k := h6 k
    cases hlb2 : lastBuilt s.currentUser users k with
    | some u =>
      rw [hlb2] at h6k
      simp at h6k
      rw [show mapGet ((s2, rem, (none : Option StoreErr))).2.1 k = mapGet rem k from rfl]
        at h6k
      rw [h6k] at hgc
      cases hgc
    | none =>
      rw [hlb2] at h6k
      simp at h6k
      have h5k := h5 k
      rw [hlb2] at h5k
      rw [show mapGet ((s2, rem, (none : Option StoreErr))).1.chats k =
        mapGet s2.chats k from rfl] at h5k
      rw [h5k, ← h6k]
      exact hgc
  rcases markOffline_spec rem s2 h4 hagree with ⟨m1, m2, m3⟩
  refine ⟨by rw [hRU], ?_, ?_, ?_⟩
  · rw [hRU]
    show (markOffline s2 rem).currentUser = s.currentUser
    rw [m1]
    exact h2
  · rw [hRU]
    exact m2 h3
  · intro k
    rw [hRU]
    show mapGet (markOffline s2 rem).chats k = _
    rw [m3 k]
    have h6k := h6 k
    cases hlb : lastBuilt s.currentUser users k with
    | some u =>
      rw [hlb] at h6k
      simp at h6k
      rw [show mapGet ((s2, rem, (none : Option StoreErr))).2.1 k = mapGet rem k from rfl]
        at h6k
      rw [h6k]
      have h5k := h5 k
      rw [hlb] at h5k
      exact h5k
    | none =>
      rw [hlb] at h6k
      simp at h6k
      rw [show mapGet ((s2, rem, (none : Option StoreErr))).2.1 k = mapGet rem k from rfl]
        at h6k
      rw [h6k]
      have h5k := h5 k
      rw [hlb] at h5k
      cases hgk : mapGet s.chats k with
      | some c => rfl
      | none => exact h5k.trans hgk

/-! ### Claim C1: determinism of the chat id -/

theorem sortStrings_perm_invariant {l1 l2 : List String} (h : l1.Perm l2) :
    sortStrings l1 = sortStrings l2 :=
  List.eq_of_perm_of_sorted
    ((List.perm_insertionSort strLe l1).trans
      (h.trans (List.perm_insertionSort strLe l2).symm))
    (List.sorted_insertionSort strLe l1)
    (List.sorted_insertionSort strLe l2)

theorem chatIdOfIds_perm {l1 l2 : List String} (h : l1.Perm l2) :
    chatIdOfIds l1 = chatIdOfIds l2 := by
  unfold chatIdOfIds
  rw [sortStrings_perm_invariant h]

theorem buildChat_id {s : Store} {users : List User} {c : Chat}
    (h : s.buildChat users = .ok c) :
    c.Id = chatIdOfIds (s.currentUser.Id :: users.map User.Id) := by
  unfold Store.buildChat at h
  by_cases hc : users.any (fun u => u.Id = s.currentUser.Id)
  · rw [if_pos hc] at h
    cases h
  · rw [if_neg hc] at h
    injection h with h
    rw [← h]

/-- Claim C1: the chat id `buildChat` computes is the base64 of the "_"-join of
the lexicographically sorted participant ids (owner plus supplied users), so it
is invariant under permutation of the participant ids; in particular the id a
store owned by A computes for a chat with B equals the id a store owned by B
computes for a chat with A, and for ids "aaa" and "bbb" the id is exactly
"YWFhX2JiYg==". -/
theorem c1_chat_id_deterministic :
    (∀ (s : Store) (users : List User) (c : Chat), s.buildChat users = .ok c →
      c.Id = chatIdOfIds (s.currentUser.Id :: users.map User.Id)) ∧
    (∀ l1 l2 : List String, l1.Perm l2 → chatIdOfIds l1 = chatIdOfIds l2) ∧
    (∀ (sA sB : Store) (A B : User) (cAB cBA : Chat),
      sA.currentUser = A → sB.currentUser = B →
      sA.buildChat [B] = .ok cAB → sB.buildChat [A] = .ok cBA → cAB.Id = cBA.Id) ∧
    chatIdOfIds ["aaa", "bbb"] = "YWFhX2JiYg==" := by
  refine ⟨fun s users c h => buildChat_id h, fun l1 l2 h => chatIdOfIds_perm h, ?_, by decide⟩
  intro sA sB A B cAB cBA hA hB h1 h2
  rw [buildChat_id h1, buildChat_id h2, hA, hB]
  exact chatIdOfIds_perm (by simp [List.Perm.swap])

/-- Witness for C1 at concrete inputs: permutation invariance applied to the
two orders of the id pair "aaa", "bbb". -/
theorem c1_chat_id_deterministic_witness :
    chatIdOfIds ["bbb", "aaa"] = chatIdOfIds ["aaa", "bbb"] :=
  c1_chat_id_deterministic.2.1 ["bbb", "aaa"] ["aaa", "bbb"] (by decide)

/-! ### Claim C3: AddChatLine error and success behaviour -/

theorem findUser_none_iff (us : List User) (id : String) :
    findUser us id = none ↔ ∀ u ∈ us, u.Id ≠ id := by
  induction us with
  | nil => simp [findUser]
  | cons u us ih =>
    by_cases hu : u.Id = id
    · simp [findUser, hu]
    · simp [findUser, hu, ih]

theorem GetUser_none_iff (c : Chat) (id : String) :
    c.GetUser id = none ↔ (∀ u ∈ c.Users, u.Id ≠ id) ∧ id ≠ c.OwnerUser.Id := by
  unfold Chat.GetUser
  cases hf : findUser c.Users id with
  | some u =>
    constructor
    · intro h
      cases h
    · intro h
      have hnone : findUser c.Users id = none := (findUser_none_iff c.Users id).mpr h.1
      rw [hf] at hnone
      cases hnone
  | none =>
    have hall := (findUser_none_iff c.Users id).mp hf
    by_cases ho : id = c.OwnerUser.Id
    · rw [if_pos ho]
      constructor
      · intro h
        cases h
      · intro hco
        exact absurd ho hco.2
    · rw [if_neg ho]
      exact ⟨fun _ => ⟨hall, ho⟩, fun _ => rfl⟩

theorem AddChatLine_of_none {s : Store} {m : Message}
    (hg : mapGet s.chats m.ChatId = none) :
    s.AddChatLine m = .error .ChatNotFoundErr := by
  unfold Store.AddChatLine
  simp only [hg]

theorem AddChatLine_of_nouser {s : Store} {m : Message} {c : Chat}
    (hg : mapGet s.chats m.ChatId = some c) (hu : c.GetUser m.UserId = none) :
    s.AddChatLine m = .error .UserNotInChatErr := by
  unfold Store.AddChatLine
  simp only [hg, hu]

theorem AddChatLine_of_user {s : Store} {m : Message} {c : Chat} {u : User}
    (hg : mapGet s.chats m.ChatId = some c) (hu : c.GetUser m.UserId = some u) :
    s.AddChatLine m = .ok ({ s with chats := (mapPut s.chats m.ChatId
      { c with Content := sortByAt (c.Content ++ [{ m with UserName := u.Name }]) }) }) := by
  unfold Store.AddChatLine
  simp only [hg, hu]

/-- Claim C3: `AddChatLine` returns ChatNotFound exactly when the chat id is
absent; returns UserNotInChat exactly when the chat exists but the message's
user is neither a remote participant nor the owner; otherwise it succeeds,
storing the message with `UserName` taken from the chat's roster, and the
result does not depend on the `UserName` the caller supplied. -/
theorem c3_addChatLine_errors_and_roster (s : Store) (m : Message) :
    (s.AddChatLine m = .error .ChatNotFoundErr ↔ mapGet s.chats m.ChatId = none) ∧
    (s.AddChatLine m = .error .UserNotInChatErr ↔
      ∃ c, mapGet s.chats m.ChatId = some c ∧
        (∀ u ∈ c.Users, u.Id ≠ m.UserId) ∧ m.UserId ≠ c.OwnerUser.Id) ∧
    (∀ c u, mapGet s.chats m.ChatId = some c → c.GetUser m.UserId = some u →
      ∃ s2, s.AddChatLine m = .ok s2 ∧
        ∃ c2, mapGet s2.chats m.ChatId = some c2 ∧
          c2.Content.Perm ({ m with UserName := u.Name } :: c.Content)) ∧
    (∀ w, s.AddChatLine { m with UserName := w } = s.AddChatLine m) := by
  refine ⟨?_, ?_, ?_, ?_⟩
  · constructor
    · intro h
      cases hg : mapGet s.chats m.ChatId with
      | none => rfl
      | some c =>
        cases hu : c.GetUser m.UserId with
        | none =>
          rw [AddChatLine_of_nouser hg hu] at h
          cases h
        | some u =>
          rw [AddChatLine_of_user hg hu] at h
          cases h
    · intro hg
      exact AddChatLine_of_none hg
  · constructor
    · intro h
      cases hg : mapGet s.chats m.ChatId with
      | none =>
        rw [AddChatLine_of_none hg] at h
        cases h
      | some c =>
        cases hu : c.GetUser m.UserId with
        | none => exact ⟨c, rfl, (GetUser_none_iff c m.UserId).mp hu⟩
        | some u =>
          rw [AddChatLine_of_user hg hu] at h
          cases h
    · rintro ⟨c, hg, hrest⟩
      exact AddChatLine_of_nouser hg ((GetUser_none_iff c m.UserId).mpr hrest)
  · intro c u hg hu
    refine ⟨_, AddChatLine_of_user hg hu,
      { c with Content := sortByAt (c.Content ++ [{ m with UserName := u.Name }]) },
      ?_, ?_⟩
    · exact mapGet_mapPut_eq _ _ _
    · exact (List.perm_insertionSort msgLe _).trans
        (List.perm_append_singleton { m with UserName := u.Name } c.Content)
  · intro w
    obtain ⟨mc, mu, mn, mt, ma, me⟩ := m
    rfl

/-- Witness for C3 at a concrete store: a message into an absent chat comes
back as ChatNotFound. -/
theorem c3_addChatLine_errors_and_roster_witness :
    ({ currentUser := { Id := "aaa", Name := "A", Address := "h", Port := 1000 },
       chats := [] } : Store).AddChatLine
      { ChatId := "nope", UserId := "aaa", UserName := "", Text := "hi", At := 3,
        ErrorMessage := false } = .error .ChatNotFoundErr :=
  (c3_addChatLine_errors_and_roster _ _).1.mpr (by decide)

/-! ### Claim C4: content stays sorted by timestamp -/

/-- Every chat in the store has its content in non-decreasing `At` order. -/
def ChatsSorted (s : Store) : Prop := ∀ p ∈ s.chats, List.Sorted msgLe p.2.Content

theorem AddChatLine_sorted {s s2 : Store} {m : Message} (h : ChatsSorted s)
    (hok : s.AddChatLine m = .ok s2) : ChatsSorted s2 := by
  cases hg : mapGet s.chats m.ChatId with
  | none =>
    rw [AddChatLine_of_none hg] at hok
    cases hok
  | some c =>
    cases hu : c.GetUser m.UserId with
    | none =>
      rw [AddChatLine_of_nouser hg hu] at hok
      cases hok
    | some u =>
      rw [AddChatLine_of_user hg hu] at hok
      injection hok with hok
      subst hok
      intro p hp
      rcases mem_mapPut hp with rfl | hp2
      · exact List.sorted_insertionSort msgLe _
      · exact h p hp2

/-- Submit a list of messages through `AddChatLine` in order; a rejected
message leaves the store unchanged (as in the source, which returns before
mutating on every error path). -/
def applyMessages (s : Store) : List Message → Store
  | [] => s
  | m :: ms =>
    match s.AddChatLine m with
    | .ok s2 => applyMessages s2 ms
    | .error _ => applyMessages s ms

/-- Claim C4: after any sequence of `AddChatLine` calls on a store whose chats
are sorted by timestamp (the successful ones mutate it, the failed ones do
not), every chat's content is still in non-decreasing `At` order, whatever
the submission order was. -/
theorem c4_content_sorted_by_at (s : Store) (ms : List Message) (h : ChatsSorted s) :
    ChatsSorted (applyMessages s ms) := by
  induction ms generalizing s with
  | nil => exact h
  | cons m ms ih =>
    rw [applyMessages]
    cases hok : s.AddChatLine m with
    | ok s2 => exact ih s2 (AddChatLine_sorted h hok)
    | error e => exact ih s h

/-- Witness for C4: two messages submitted out of timestamp order into a
one-chat store end up sorted. -/
theorem c4_content_sorted_by_at_witness :
    ChatsSorted (applyMessages
      { currentUser := { Id := "aaa", Name := "A", Address := "h", Port := 1000 },
        chats := [("c1",
          { Id := "c1",
            OwnerUser := { Id := "aaa", Name := "A", Address := "h", Port := 1000 },
            Users := [{ Id := "bbb", Name := "B", Address := "h", Port := 1001 }],
            Content := [], Offline := false })] }
      [{ ChatId := "c1", UserId := "aaa", UserName := "", Text := "later", At := 9,
         ErrorMessage := false },
       { ChatId := "c1", UserId := "bbb", UserName := "", Text := "earlier", At := 2,
         ErrorMessage := false }]) :=
  c4_content_sorted_by_at _ _ (by
    intro p hp
    rcases List.mem_cons.mp hp with rfl | hp2
    · exact List.sorted_nil
    · cases hp2)

/-! ### Claim C5: the reconciliation contract of RefreshUsers -/

/-- Claim C5: after a (necessarily error-free) `RefreshUsers users` on a
well-formed store, every supplied user other than the current user has a chat
under the deterministic pair id with `Offline = false`; every pre-existing
chat matching no supplied user is the old record with `Offline = true`; and
every pre-existing chat keeps exactly the content it had. -/
theorem c5_refresh_reconciliation (s : Store) (users : List User) (h : WfStore s) :
    (s.RefreshUsers users).2 = none ∧
    (∀ u ∈ users, u.Id ≠ s.currentUser.Id →
      ∃ c, mapGet (s.RefreshUsers users).1.chats (pairChatId s.currentUser u) = some c ∧
        c.Offline = false) ∧
    (∀ k c, mapGet s.chats k = some c →
      (∀ u ∈ users, pairChatId s.currentUser u ≠ k ∨ u.Id = s.currentUser.Id) →
      mapGet (s.RefreshUsers users).1.chats k = some { c with Offline := true }) ∧
    (∀ k c, mapGet s.chats k = some c →
      ∃ c2, mapGet (s.RefreshUsers users).1.chats k = some c2 ∧
        c2.Content = c.Content) := by
  rcases RefreshUsers_spec s users h with ⟨h1, _h2, _h3, h4⟩
  refine ⟨h1, ?_, ?_, ?_⟩
  · intro u hm hneq
    have hsome := lastBuilt_isSome_of_mem hm hneq
    rcases Option.isSome_iff_exists.mp hsome with ⟨v, hv⟩
    refine ⟨{ freshChat s.currentUser v with
      Content := contentAt s (pairChatId s.currentUser u) }, ?_, rfl⟩
    rw [h4 (pairChatId s.currentUser u), hv]
  · intro k c hgk hnot
    cases hl : lastBuilt s.currentUser users k with
    | some u =>
      rcases lastBuilt_spec hl with ⟨hmem, hne, hpair⟩
      rcases hnot u hmem with hbad | hbad
      · exact absurd hpair hbad
      · exact absurd hbad hne
    | none =>
      rw [h4 k, hl, hgk]
  · intro k c hgk
    cases hl : lastBuilt s.currentUser users k with
    | some u =>
      refine ⟨{ freshChat s.currentUser u with Content := contentAt s k }, ?_, ?_⟩
      · rw [h4 k, hl]
      · show contentAt s k = c.Content
        unfold contentAt
        rw [hgk]
    | none =>
      refine ⟨{ c with Offline := true }, ?_, rfl⟩
      rw [h4 k, hl, hgk]

theorem WfStore_nil (u : User) : WfStore { currentUser := u, chats := [] } :=
  ⟨List.nodup_nil, fun p hp => absurd hp (List.not_mem_nil p)⟩

/-- Witness for C5 at concrete inputs: one fresh user joins an empty store
without error. -/
theorem c5_refresh_reconciliation_witness :
    (({ currentUser := { Id := "aaa", Name := "A", Address := "h", Port := 1000 },
        chats := [] } : Store).RefreshUsers
      [{ Id := "bbb", Name := "B", Address := "h", Port := 1001 }]).2 = none :=
  (c5_refresh_reconciliation _ _ (WfStore_nil _)).1

/-! ### Claim C6: RefreshUsers is idempotent -/

/-- Claim C6: running `RefreshUsers` twice with the same user list leaves
exactly the chats map that one run produces (no error; same chat set, offline
flags, and contents). -/
theorem c6_refreshUsers_idempotent (s : Store) (users : List User) (h : WfStore s) :
    ((s.RefreshUsers users).1.RefreshUsers users).2 = none ∧
    ∀ k, mapGet ((s.RefreshUsers users).1.RefreshUsers users).1.chats k =
      mapGet (s.RefreshUsers users).1.chats k := by
  rcases RefreshUsers_spec s users h with ⟨_h1, h2, h3, h4⟩
  rcases RefreshUsers_spec (s.RefreshUsers users).1 users h3 with ⟨g1, _g2, _g3, g4⟩
  refine ⟨g1, ?_⟩
  intro k
  rw [g4 k, h2]
  cases hl : lastBuilt s.currentUser users k with
  | some u =>
    have hget : mapGet (s.RefreshUsers users).1.chats k =
        some { freshChat s.currentUser u with Content := contentAt s k } := by
      rw [h4 k, hl]
    have hc : contentAt (s.RefreshUsers users).1 k = contentAt s k := by
      unfold contentAt
      rw [hget]
      rfl
    rw [hc, hget]
  | none =>
    cases hsk : mapGet s.chats k with
    | some c =>
      have hget : mapGet (s.RefreshUsers users).1.chats k =
          some { c with Offline := true } := by
        rw [h4 k, hl, hsk]
      rw [hget]
    | none =>
      have hget : mapGet (s.RefreshUsers users).1.chats k = none := by
        rw [h4 k, hl, hsk]
      rw [hget]

/-- Witness for C6 at concrete inputs: refreshing an empty store twice with
the same single user changes nothing the second time. -/
theorem c6_refreshUsers_idempotent_witness :
    ((({ currentUser := { Id := "aaa", Name := "A", Address := "h", Port := 1000 },
         chats := [] } : Store).RefreshUsers
      [{ Id := "bbb", Name := "B", Address := "h", Port := 1001 }]).1.RefreshUsers
      [{ Id := "bbb", Name := "B", Address := "h", Port := 1001 }]).2 = none :=
  (c6_refreshUsers_idempotent _ _ (WfStore_nil _)).1

/-! ### Claim C7: rejection of the current user in chat building -/

/-- The current user used by the C7 scenarios. -/
def c7CurrentUser : User := { Id := "me", Name := "Me", Address := "127.0.0.1", Port := 1000 }

/-- A store owned by `c7CurrentUser` with no chats. -/
def c7SelfStore : Store := { currentUser := c7CurrentUser, chats := [] }

/-- Counterexample to C7 as stated: supplying the current user to
`RefreshUsers` does NOT reject with `WrongNewChatUsersErr` — the user is
silently skipped and the call returns no error (the store test
"RefreshUsers ... but one is the current user" relies on exactly this). -/
theorem c7_counterexample_refresh_accepts_self :
    (c7SelfStore.RefreshUsers [c7CurrentUser]).2 ≠ some StoreErr.WrongNewChatUsersErr ∧
    (c7SelfStore.RefreshUsers [c7CurrentUser]).2 = none := by
  decide

/-- No stored chat lists the current user among its remote users. -/
def NoSelfChat (s : Store) : Prop :=
  ∀ p ∈ s.chats, ∀ u ∈ p.2.Users, u.Id ≠ s.currentUser.Id

theorem mapGet_of_mem_nodup {α : Type} :
    ∀ {m : List (String × α)}, (mapKeys m).Nodup → ∀ {p : String × α}, p ∈ m →
      mapGet m p.1 = some p.2 := by
  intro m
  induction m with
  | nil =>
    intro _ p hp
    cases hp
  | cons q qs ih =>
    intro h p hp
    rcases List.mem_cons.mp hp with rfl | hp2
    · rw [mapGet, if_pos rfl]
    · have hq : ¬ (q.1 = p.1) := by
        intro he
        have hmem : p.1 ∈ mapKeys qs := List.mem_map.mpr ⟨p, hp2, rfl⟩
        rw [mapKeys_cons] at h
        exact (List.nodup_cons.mp h).1 (he ▸ hmem)
      rw [mapGet, if_neg hq]
      exact ih (by rw [mapKeys_cons] at h; exact (List.nodup_cons.mp h).2) hp2

/-- Claim C7 as amended: `buildChat` rejects with `WrongNewChatUsersErr`
whenever a supplied user equals the current user, while `RefreshUsers` skips
such users and returns no error; in either case no chat whose users list
contains the current user is ever constructed or stored. -/
theorem c7_amended_no_self_chat :
    (∀ (s : Store) (users : List User) (u : User), u ∈ users → u.Id = s.currentUser.Id →
      s.buildChat users = .error .WrongNewChatUsersErr) ∧
    (∀ (s : Store) (users : List User), WfStore s → (s.RefreshUsers users).2 = none) ∧
    (∀ (s : Store) (users : List User), WfStore s → NoSelfChat s →
      NoSelfChat (s.RefreshUsers users).1) := by
  refine ⟨fun s users u hm hid => buildChat_error hm hid, ?_, ?_⟩
  · intro s users h
    exact (RefreshUsers_spec s users h).1
  · intro s users h hns
    rcases RefreshUsers_spec s users h with ⟨_h1, h2, h3, h4⟩
    intro p hp u hu
    rw [h2]
    have hget : mapGet (s.RefreshUsers users).1.chats p.1 = some p.2 :=
      mapGet_of_mem_nodup h3.1 hp
    rw [h4 p.1] at hget
    cases hl : lastBuilt s.currentUser users p.1 with
    | some v =>
      rw [hl] at hget
      have h5 : some ({ freshChat s.currentUser v with
          Content := contentAt s p.1 }) = some p.2 := hget
      injection h5 with h5
      rcases lastBuilt_spec hl with ⟨_hvmem, hvne, _hvid⟩
      have hu2 : u ∈ [v] := by
        rw [← h5] at hu
        exact hu
      rw [List.mem_singleton.mp hu2]
      exact hvne
    | none =>
      rw [hl] at hget
      cases hsk : mapGet s.chats p.1 with
      | some c =>
        rw [hsk] at hget
        have h5 : some ({ c with Offline := true }) = some p.2 := hget
        injection h5 with h5
        have hc : (p.1, c) ∈ s.chats := mapGet_mem hsk
        have hu2 : u ∈ c.Users := by
          rw [← h5] at hu
          exact hu
        exact hns (p.1, c) hc u hu2
      | none =>
        rw [hsk] at hget
        have h5 : (none : Option Chat) = some p.2 := hget
        cases h5

/-- Witness for C7's amended statement at concrete inputs: building a chat
with the current user is rejected. -/
theorem c7_amended_no_self_chat_witness :
    c7SelfStore.buildChat [c7CurrentUser] = .error .WrongNewChatUsersErr :=
  c7_amended_no_self_chat.1 c7SelfStore [c7CurrentUser] c7CurrentUser (by decide) (by decide)

/-! ### Claim C8: Directory admission validation on PUT /ping -/

/-- Claim C8: the ping handler admits a client record exactly when id, name
and address are non-empty after trimming and the port is at least 1000; any
violation is a 400 whose JSON body carries the validation reason, port 999 in
particular yields "invalid client port"; a passing record is put into the
registry under its id. -/
theorem c8_ping_validation (reg : List (String × Client)) (c : Client) :
    (c.Validate = none ↔
      (trimSpace c.ID ≠ "" ∧ trimSpace c.Name ≠ "" ∧ trimSpace c.IP ≠ "" ∧
        1000 ≤ c.Port)) ∧
    (∀ reason, c.Validate = some reason →
      registerPingHandler reg c = .badRequest (jsonMessageBody reason)) ∧
    (trimSpace c.ID ≠ "" → trimSpace c.Name ≠ "" → trimSpace c.IP ≠ "" → c.Port = 999 →
      registerPingHandler reg c = .badRequest (jsonMessageBody "invalid client port")) ∧
    (c.Validate = none →
      registerPingHandler reg c = .okRegistered (registryPut reg c) ∧
      mapGet (registryPut reg c) c.ID = some c) := by
  refine ⟨?_, ?_, ?_, ?_⟩
  · unfold Client.Validate
    by_cases h1 : trimSpace c.ID = "" <;> by_cases h2 : trimSpace c.Name = "" <;>
      by_cases h3 : trimSpace c.IP = "" <;> by_cases h4 : c.Port < 1000 <;>
      simp [h1, h2, h3, h4] <;> omega
  · intro reason hv
    unfold registerPingHandler
    rw [hv]
  · intro h1 h2 h3 h4
    have hv : c.Validate = some "invalid client port" := by
      unfold Client.Validate
      rw [if_neg h1, if_neg h2, if_neg h3, if_pos (by omega)]
    unfold registerPingHandler
    rw [hv]
  · intro hv
    unfold registerPingHandler
    rw [hv]
    exact ⟨rfl, mapGet_mapPut_eq _ _ _⟩

/-- Witness for C8 at concrete inputs: port 999 with otherwise valid fields is
rejected with "invalid client port". -/
theorem c8_ping_validation_witness :
    registerPingHandler [] { ID := "id1", Name := "n", IP := "10.0.0.1", Port := 999 } =
      .badRequest (jsonMessageBody "invalid client port") :=
  (c8_ping_validation [] _).2.2.1 (by decide) (by decide) (by decide) rfl

/-! ### Claim C2: the frame-read discipline of ReadNetworkMessage -/

theorem readFull_ge (s : List Nat) (n : Nat) (h : n ≤ s.length) :
    readFull s n = .ok (s.take n, s.drop n) := by
  unfold readFull
  rw [if_pos h]

theorem readFull_eof (s : List Nat) (n : Nat) (h : ¬ n ≤ s.length) (h0 : s.length = 0) :
    readFull s n = .error .eofErr := by
  unfold readFull
  rw [if_neg h, if_pos h0]

theorem readFull_short (s : List Nat) (n : Nat) (h : ¬ n ≤ s.length)
    (h0 : ¬ s.length = 0) : readFull s n = .error .unexpectedEofErr := by
  unfold readFull
  rw [if_neg h, if_neg h0]

/-- After a complete 5-byte header read, `ReadNetworkMessage` is the size
parse followed by the payload read and decode. -/
theorem ReadNetworkMessage_step (decode : List Nat → Except String NetworkMsg)
    (input : List Nat) (h : 5 ≤ input.length) :
    ReadNetworkMessage decode input =
      match atoi (input.take 5) with
      | none => .err .sizeUnparseable
      | some size =>
        if size < 0 then .panicked
        else
          match readFull (input.drop 5) size.toNat with
          | .error e => .err e
          | .ok (msg, _) =>
            match decode msg with
            | .error e => .err (.decodeFailed e)
            | .ok m => .ok m := by
  unfold ReadNetworkMessage
  simp only [readFull_ge input 5 h]
  have hlen : (input.take 5).length = 5 := by
    rw [List.length_take]
    omega
  rw [hlen, if_neg (show ¬ ((5 : Nat) ≠ 5) by decide)]

/-- Claim C2: for every input stream, `ReadNetworkMessage` reads exactly 5
header bytes — EOF on an empty stream, "unexpected EOF" on a partial header;
parses them as a decimal number, failing with the "size unparseable" error
when they do not parse; then reads exactly that many payload bytes —
"unexpected EOF" on a partial payload read — and hands exactly those bytes to
the decoder, surfacing a decode failure as the error. -/
theorem c2_read_discipline (decode : List Nat → Except String NetworkMsg)
    (input : List Nat) :
    (input = [] → ReadNetworkMessage decode input = .err .eofErr) ∧
    (0 < input.length → input.length < 5 →
      ReadNetworkMessage decode input = .err .unexpectedEofErr) ∧
    (5 ≤ input.length → atoi (input.take 5) = none →
      ReadNetworkMessage decode input = .err .sizeUnparseable) ∧
    (∀ n : Nat, 5 ≤ input.length → atoi (input.take 5) = some (n : Int) →
      0 < input.length - 5 → input.length - 5 < n →
      ReadNetworkMessage decode input = .err .unexpectedEofErr) ∧
    (∀ n : Nat, 5 ≤ input.length → atoi (input.take 5) = some (n : Int) →
      n ≤ input.length - 5 →
      ReadNetworkMessage decode input =
        match decode ((input.drop 5).take n) with
        | .ok m => .ok m
        | .error e => .err (.decodeFailed e)) := by
  refine ⟨?_, ?_, ?_, ?_, ?_⟩
  · intro h
    subst h
    rfl
  · intro h0 h5
    unfold ReadNetworkMessage
    rw [readFull_short input 5 (by omega) (by omega)]
  · intro h5 hnone
    rw [ReadNetworkMessage_step decode input h5, hnone]
  · intro n h5 hsome h0 hlt
    rw [ReadNetworkMessage_step decode input h5]
    simp only [hsome]
    rw [if_neg (show ¬ ((n : Int) < 0) by omega)]
    have htn : ((n : Int)).toNat = n := Int.toNat_ofNat n
    rw [htn, readFull_short (input.drop 5) n
      (by rw [List.length_drop]; omega) (by rw [List.length_drop]; omega)]
  · intro n h5 hsome hle
    rw [ReadNetworkMessage_step decode input h5]
    simp only [hsome]
    rw [if_neg (show ¬ ((n : Int) < 0) by omega)]
    have htn : ((n : Int)).toNat = n := Int.toNat_ofNat n
    rw [htn]
    simp only [readFull_ge (input.drop 5) n (by rw [List.length_drop]; omega)]
    cases hdec : decode ((input.drop 5).take n) with
    | ok m => rfl
    | error e => rfl

/-- Witness for C2 at concrete inputs: the empty stream fails with EOF and the
stream "00009payload" (seven payload bytes for a nine-byte size) fails with
unexpected EOF, as in the socket tests. -/
theorem c2_read_discipline_witness :
    ReadNetworkMessage (fun _ => Except.error "undecodable") [] = .err .eofErr ∧
    ReadNetworkMessage (fun _ => Except.error "undecodable") (strBytes "00009payload") =
      .err .unexpectedEofErr :=
  ⟨(c2_read_discipline (fun _ => Except.error "undecodable") []).1 rfl,
    (c2_read_discipline (fun _ => Except.error "undecodable") (strBytes "00009payload")).2.2.2.1
      9 (by decide) (by decide) (by decide) (by decide)⟩

/-! ### Claim C9: framing round-trip -/

theorem natDigitsAux_congr :
    ∀ (n f1 f2 : Nat), n < f1 → n < f2 → natDigitsAux f1 n = natDigitsAux f2 n := by
  intro n
  induction n using Nat.strong_induction_on with
  | _ n ih =>
    intro f1 f2 h1 h2
    cases f1 with
    | zero => omega
    | succ f1 =>
      cases f2 with
      | zero => omega
      | succ f2 =>
        rw [natDigitsAux, natDigitsAux]
        by_cases h10 : n < 10
        · rw [if_pos h10, if_pos h10]
        · rw [if_neg h10, if_neg h10]
          have hd : n / 10 < n := Nat.div_lt_self (by omega) (by omega)
          rw [ih (n / 10) hd f1 f2 (by omega) (by omega)]

theorem natDigits_eq (n : Nat) :
    natDigits n = if n < 10 then [48 + n] else natDigits (n / 10) ++ [48 + n % 10] := by
  unfold natDigits
  rw [natDigitsAux]
  by_cases h10 : n < 10
  · rw [if_pos h10, if_pos h10]
  · rw [if_neg h10, if_neg h10]
    have hd : n / 10 < n := Nat.div_lt_self (by omega) (by omega)
    rw [natDigitsAux_congr (n / 10) n (n / 10 + 1) hd (by omega)]

theorem natDigits_mem (n : Nat) : ∀ b ∈ natDigits n, 48 ≤ b ∧ b ≤ 57 := by
  induction n using Nat.strong_induction_on with
  | _ n ih =>
    rw [natDigits_eq]
    by_cases h10 : n < 10
    · rw [if_pos h10]
      intro b hb
      rw [List.mem_singleton.mp hb]
      omega
    · rw [if_neg h10]
      intro b hb
      rcases List.mem_append.mp hb with hb1 | hb2
      · exact ih (n / 10) (Nat.div_lt_self (by omega) (by omega)) b hb1
      · rw [List.mem_singleton.mp hb2]
        have := Nat.mod_lt n (show 0 < 10 by omega)
        omega

theorem natDigits_ne_nil (n : Nat) : natDigits n ≠ [] := by
  rw [natDigits_eq]
  by_cases h10 : n < 10
  · rw [if_pos h10]
    simp
  · rw [if_neg h10]
    simp

theorem digitsFold_append_one (l : List Nat) (d : Nat) :
    digitsFold (l ++ [d]) = digitsFold l * 10 + (d - 48) := by
  unfold digitsFold
  rw [List.foldl_append]
  rfl

theorem digitsFold_natDigits (n : Nat) : digitsFold (natDigits n) = n := by
  induction n using Nat.strong_induction_on with
  | _ n ih =>
    rw [natDigits_eq]
    by_cases h10 : n < 10
    · rw [if_pos h10]
      show 0 * 10 + (48 + n - 48) = n
      omega
    · rw [if_neg h10]
      rw [digitsFold_append_one,
        ih (n / 10) (Nat.div_lt_self (by omega) (by omega))]
      have := Nat.div_add_mod n 10
      omega

theorem natDigits_length_le :
    ∀ (k : Nat), 0 < k → ∀ (n : Nat), n < 10 ^ k → (natDigits n).length ≤ k := by
  intro k
  induction k with
  | zero => omega
  | succ k ihk =>
    intro _ n hn
    rw [natDigits_eq]
    by_cases h10 : n < 10
    · rw [if_pos h10]
      simp
    · rw [if_neg h10]
      rw [List.length_append]
      have hkpos : 0 < k := by
        rcases Nat.eq_zero_or_pos k with rfl | hkp
        · rw [pow_one] at hn
          omega
        · exact hkp
      have hd : n / 10 < 10 ^ k := by
        rw [Nat.div_lt_iff_lt_mul (show 0 < 10 by omega)]
        calc n < 10 ^ (k + 1) := hn
          _ = 10 ^ k * 10 := by rw [pow_succ]
      have := ihk hkpos (n / 10) hd
      simp only [List.length_singleton]
      omega

theorem sizeStr5_length (n : Nat) (h : n ≤ 99999) : (sizeStr5 n).length = 5 := by
  unfold sizeStr5
  rw [List.length_append, List.length_replicate]
  have h1 : (natDigits n).length ≤ 5 := natDigits_length_le 5 (by omega) n (by omega)
  omega

theorem digitsFold_replicate_48 (k : Nat) (l : List Nat) :
    digitsFold (List.replicate k 48 ++ l) = digitsFold l := by
  induction k with
  | zero => rfl
  | succ k ih =>
    rw [List.replicate_succ, List.cons_append]
    unfold digitsFold at ih ⊢
    rw [List.foldl_cons]
    simpa using ih

theorem atoi_digits (bs : List Nat) (hne : bs ≠ []) (hall : ∀ b ∈ bs, 48 ≤ b ∧ b ≤ 57) :
    atoi bs = some (Int.ofNat (digitsFold bs)) := by
  cases bs with
  | nil => exact absurd rfl hne
  | cons b rest =>
    have hb := hall b (List.mem_cons_self _ _)
    have hallb : (b :: rest).all isDigit = true := by
      rw [List.all_eq_true]
      intro x hx
      have hx2 := hall x hx
      unfold isDigit
      simp only [Bool.and_eq_true, decide_eq_true_eq]
      omega
    have hb43 : ¬ (b = 43) := by omega
    have hb45 : ¬ (b = 45) := by omega
    rw [atoi, if_neg hb43, if_neg hb45, digitsVal, if_pos hallb]
    rfl

theorem atoi_sizeStr5 (n : Nat) (h : n ≤ 99999) : atoi (sizeStr5 n) = some (n : Int) := by
  have hne : sizeStr5 n ≠ [] := by
    intro he
    have hl := sizeStr5_length n h
    rw [he] at hl
    cases hl
  have hall : ∀ b ∈ sizeStr5 n, 48 ≤ b ∧ b ≤ 57 := by
    intro b hb
    unfold sizeStr5 at hb
    rcases List.mem_append.mp hb with hb1 | hb2
    · rw [List.eq_of_mem_replicate hb1]
      omega
    · exact natDigits_mem n b hb2
  rw [atoi_digits _ hne hall]
  unfold sizeStr5
  rw [digitsFold_replicate_48, digitsFold_natDigits]
  rfl

/-- Claim C9: if the two ends share a codec (decoding the encoding of `m`
yields `m` again, which is what the gob codec guarantees), then framing `m` as
`writeToConn` does — the 5-byte zero-padded decimal length followed by the
encoded payload, provided the payload fits the 65535-byte frame limit — and
reading the resulting byte stream with `ReadNetworkMessage` yields `m`. -/
theorem c9_frame_roundtrip (encode : NetworkMsg → List Nat)
    (decode : List Nat → Except String NetworkMsg) (m : NetworkMsg) (bytes : List Nat)
    (hdec : decode (encode m) = .ok m) (hframe : writeFrame encode m = some bytes) :
    ReadNetworkMessage decode bytes = .ok m := by
  unfold writeFrame at hframe
  by_cases hlen : (encode m).length > 65535
  · rw [if_pos hlen] at hframe
    cases hframe
  · rw [if_neg hlen] at hframe
    injection hframe with hframe
    subst hframe
    have hL : (encode m).length ≤ 99999 := by omega
    have h5 : (sizeStr5 (encode m).length).length = 5 := sizeStr5_length _ hL
    have hblen : 5 ≤ (sizeStr5 (encode m).length ++ encode m).length := by
      rw [List.length_append, h5]
      omega
    rw [ReadNetworkMessage_step decode _ hblen]
    have htake : (sizeStr5 (encode m).length ++ encode m).take 5 =
        sizeStr5 (encode m).length := by
      rw [← h5]
      exact List.take_left _ _
    have hdrop : (sizeStr5 (encode m).length ++ encode m).drop 5 = encode m := by
      rw [← h5]
      exact List.drop_left _ _
    rw [htake]
    simp only [atoi_sizeStr5 _ hL]
    rw [if_neg (show ¬ (((encode m).length : Int) < 0) by omega)]
    rw [show (((encode m).length : Int)).toNat = (encode m).length from
      Int.toNat_ofNat _]
    rw [hdrop]
    simp only [readFull_ge (encode m) (encode m).length (Nat.le_refl _),
      List.take_length]
    rw [hdec]

/-- Witness for C9 at concrete inputs: a trivial one-message codec framed and
read back. -/
theorem c9_frame_roundtrip_witness :
    ReadNetworkMessage
      (fun _ => Except.ok { UserId := "u", ChatId := "c", Message := "hi", At := 7 })
      [48, 48, 48, 48, 49, 42] =
      .ok { UserId := "u", ChatId := "c", Message := "hi", At := 7 } :=
  c9_frame_roundtrip (fun _ => [42])
    (fun _ => Except.ok { UserId := "u", ChatId := "c", Message := "hi", At := 7 })
    { UserId := "u", ChatId := "c", Message := "hi", At := 7 }
    [48, 48, 48, 48, 49, 42] rfl (by decide)

/-! ### Claim C10: totality of ReadNetworkMessage -/

/-- Claim C10 fails on the code: a header that `strconv.Atoi` parses as a
negative number, such as "-0001", reaches `make([]byte, size)` with a negative
size, which panics at run time ("makeslice: len out of range") instead of
returning an error; the embedding evaluates to the distinguished `panicked`
outcome at that input. -/
theorem c10_negative_size_panics :
    ReadNetworkMessage (fun _ => Except.error "undecodable") (strBytes "-0001x") =
      .panicked := by
  decide

end GoChat
